import Mathlib

/-!
Verification development for the agent-zero cognitive tensor engine
(`src/agent-zero/cognitive-tensors.c` and `src/agent-zero/opencog-ggml-bridge.c`).

Modelling conventions of the shallow embedding:
* C `float`/`double` arithmetic is modelled by exact rational arithmetic (`ℚ`);
  all the constants in the code (0.5f, 0.1f, 0.2f, 0.01f, 0.8) are exact in ℚ.
* `sinf` from `<math.h>` is modelled as an explicit function parameter
  `sinf : ℚ → ℚ`; theorems that need a property of it (only `sinf 0 = 0`,
  which holds exactly for IEEE `sinf`) take it as a hypothesis.
* Heap buffers (`float*`, `int*` arrays) are modelled as total functions
  `ℕ → ℚ` / `ℕ → ℤ`; `malloc`/`calloc`/`aligned_alloc` are assumed to
  succeed, so the `NULL`-return paths that exist only for allocation
  failure or null arguments are not reachable in the model.
* In-place mutation is modelled by explicit state passing: a C function
  mutating a struct returns the updated struct (paired with its `int`
  return code where the C function has one).
-/

/-! ## Tensor structures (`cognitive-tensors.c`, lines 13-24) -/

/-- `struct ggml_tensor` (cognitive-tensors.c lines 13-18 and the
layout-compatible copy in opencog-ggml-bridge.c lines 46-52).  The C array
`ne[4]` of dimensions becomes four fields; the strides `nb[4]` are never read
by any code under verification and are omitted.  `data` is the flat row-major
buffer. -/
structure ggml_tensor where
  ne0 : ℕ
  ne1 : ℕ
  ne2 : ℕ
  ne3 : ℕ
  type : ℤ
  data : ℕ → ℚ

/-- `ggml_new_tensor_2d` (cognitive-tensors.c lines 27-44): a fresh 2-D tensor
with trailing extents 1 and a `calloc`-zeroed buffer. -/
def ggml_new_tensor_2d (ty : ℤ) (n0 n1 : ℕ) : ggml_tensor :=
  { ne0 := n0, ne1 := n1, ne2 := 1, ne3 := 1, type := ty, data := fun _ => 0 }

/-- `ggml_mul` (cognitive-tensors.c lines 46-61).  The C code performs no
shape comparison: it allocates a result of `a`'s extents and multiplies
element-wise over `size = a->ne[0] * a->ne[1]`, indexing `b_data[i]` for every
`i < size` even when `b`'s buffer is smaller.  The embedding reads `b.data i`
for those indices, mirroring the out-of-bounds access on `b`'s buffer.  The C
function returns `NULL` only for null arguments or allocation failure, which
the model's types exclude, so the result is always `some`. -/
def ggml_mul (a b : ggml_tensor) : Option ggml_tensor :=
  some { ggml_new_tensor_2d 0 a.ne0 a.ne1 with
    data := fun i => if i < a.ne0 * a.ne1 then a.data i * b.data i else 0 }

/-- `ggml_add` (cognitive-tensors.c lines 63-78); same structure as
`ggml_mul`, with addition. -/
def ggml_add (a b : ggml_tensor) : Option ggml_tensor :=
  some { ggml_new_tensor_2d 0 a.ne0 a.ne1 with
    data := fun i => if i < a.ne0 * a.ne1 then a.data i + b.data i else 0 }

/-! ## Cognitive tensor operations (`cognitive-tensors.c`) -/

/-- `cognitive_attention_matrix` (cognitive-tensors.c lines 90-105): builds an
attention tensor with cell `i` equal to
`attention_weight * (1 + 0.1 * sinf(i * 0.1))` for `i < ne0*ne1` (over the
zero-filled fresh tensor), then returns `ggml_mul input attention`. -/
def cognitive_attention_matrix (sinf : ℚ → ℚ) (input : ggml_tensor)
    (attention_weight : ℚ) : Option ggml_tensor :=
  let attention : ggml_tensor :=
    { ggml_new_tensor_2d 0 input.ne0 input.ne1 with
      data := fun i =>
        if i < input.ne0 * input.ne1 then
          attention_weight * (1 + (1/10) * sinf ((i : ℚ) * (1/10)))
        else 0 }
  ggml_mul input attention

/-- `cognitive_pattern_match` (cognitive-tensors.c lines 125-152): clipped
correlation.  For the cell at row `i = k / ne1`, column `j = k % ne1` the C
loops are `for (pi = 0; pi < pattern->ne[0] && i + pi < data->ne[0]; pi++)`
and the analogous `pj` loop, i.e. they run exactly over
`pi < min pattern.ne0 (data.ne0 - i)` and `pj < min pattern.ne1 (data.ne1 - j)`;
the float accumulation order is irrelevant in ℚ, so the loops become sums. -/
def cognitive_pattern_match (pattern data : ggml_tensor) : ggml_tensor :=
  { ggml_new_tensor_2d 0 data.ne0 data.ne1 with
    data := fun k =>
      if k < data.ne0 * data.ne1 then
        ∑ pi ∈ Finset.range (min pattern.ne0 (data.ne0 - k / data.ne1)),
          ∑ pj ∈ Finset.range (min pattern.ne1 (data.ne1 - k % data.ne1)),
            pattern.data (pi * pattern.ne1 + pj) *
              data.data ((k / data.ne1 + pi) * data.ne1 + (k % data.ne1 + pj))
      else 0 }

/-- `meta_cognitive_transform` (cognitive-tensors.c lines 154-174):
`output[i] = input[i] * (1 + meta_level*0.2) * (1 + 0.1*sinf(i*meta_level*0.01))`
for `i < ne0*ne1`, over a fresh zero tensor of `input`'s 2-D extents. -/
def meta_cognitive_transform (sinf : ℚ → ℚ) (input : ggml_tensor)
    (meta_level : ℤ) : ggml_tensor :=
  { ggml_new_tensor_2d 0 input.ne0 input.ne1 with
    data := fun i =>
      if i < input.ne0 * input.ne1 then
        input.data i * (1 + (meta_level : ℚ) * (1/5)) *
          (1 + (1/10) * sinf ((i : ℚ) * (meta_level : ℚ) * (1/100)))
      else 0 }

/-! ## Cognitive kernel (`cognitive.h` lines 37-42, `cognitive-tensors.c`) -/

/-- `cognitive_kernel_t` (cognitive.h lines 37-42).  `kernel_id` is a
pointer-derived token in C; it plays no role in any verified operation. -/
structure cognitive_kernel_t where
  tensor_field : ggml_tensor
  attention_weight : ℚ
  meta_level : ℤ
  kernel_id : ℕ

/-- `update_kernel_attention` (cognitive-tensors.c lines 212-219): returns
`-1` leaving the kernel untouched when the weight is outside `[0,1]`
(the `!kernel` null test is excluded by the model's types), else stores the
weight and returns `0`. -/
def update_kernel_attention (kernel : cognitive_kernel_t) (new_weight : ℚ) :
    ℤ × cognitive_kernel_t :=
  if new_weight < 0 ∨ 1 < new_weight then (-1, kernel)
  else (0, { kernel with attention_weight := new_weight })

/-! ## Hypergraph and codec (`cognitive.h` lines 56-62, `cognitive-tensors.c`) -/

/-- `hypergraph_t` (cognitive.h lines 56-62): weight arrays and the flat
`int` adjacency matrix addressed as `adjacency_matrix[i * node_count + j]`. -/
structure hypergraph_t where
  node_count : ℕ
  link_count : ℕ
  node_weights : ℕ → ℚ
  link_weights : ℕ → ℚ
  adjacency_matrix : ℕ → ℤ

/-- `create_hypergraph` (cognitive-tensors.c lines 222-239): all three
buffers are `calloc`-zeroed. -/
def create_hypergraph (node_count link_count : ℕ) : hypergraph_t :=
  { node_count := node_count, link_count := link_count,
    node_weights := fun _ => 0, link_weights := fun _ => 0,
    adjacency_matrix := fun _ => 0 }

/-- `encode_hypergraph_to_tensor` (cognitive-tensors.c lines 250-271): an
`N×N` tensor with
`tensor_data[i*N + j] = adjacency[i*N + j] * ((w[i] + w[j]) * 0.5)`.
For the flat index `k = i*N + j` with `i, j < N` we have `i = k / N` and
`j = k % N`, which is how the nested loops appear below. -/
def encode_hypergraph_to_tensor (hg : hypergraph_t) : ggml_tensor :=
  { ggml_new_tensor_2d 0 hg.node_count hg.node_count with
    data := fun k =>
      if k < hg.node_count * hg.node_count then
        (hg.adjacency_matrix k : ℚ) *
          ((hg.node_weights (k / hg.node_count) + hg.node_weights (k % hg.node_count)) * (1/2))
      else 0 }

/-- Loop body of `decode_tensor_to_hypergraph` (cognitive-tensors.c lines
284-294) for the cell `c = (i, j)`: read
`value = tensor_data[i * tensor->ne[1] + j]`, set
`adjacency_matrix[i * node_count + j] = value > 0.5 ? 1 : 0`, and if
`value > 0` update `node_weights[i] = (node_weights[i] + value) * 0.5` and
then (reading the possibly-just-updated array) `node_weights[j] =
(node_weights[j] + value) * 0.5`. -/
def decodeStep (t : ggml_tensor) (hg : hypergraph_t) (c : ℕ × ℕ) : hypergraph_t :=
  let v := t.data (c.1 * t.ne1 + c.2)
  let hg1 : hypergraph_t :=
    { hg with
      adjacency_matrix :=
        Function.update hg.adjacency_matrix (c.1 * hg.node_count + c.2)
          (if (1/2 : ℚ) < v then 1 else 0) }
  if 0 < v then
    let w1 := Function.update hg1.node_weights c.1 ((hg1.node_weights c.1 + v) * (1/2))
    { hg1 with node_weights := Function.update w1 c.2 ((w1 c.2 + v) * (1/2)) }
  else hg1

/-- Inner `j` loop of `decode_tensor_to_hypergraph`: after `decodeRowCols t i
cols hg`, the cells `(i, 0), (i, 1), …, (i, cols-1)` have been processed in
increasing order (the last equation applies the step for `j = cols-1` last). -/
def decodeRowCols (t : ggml_tensor) (i : ℕ) : ℕ → hypergraph_t → hypergraph_t
  | 0, hg => hg
  | c + 1, hg => decodeStep t (decodeRowCols t i c hg) (i, c)

/-- Outer `i` loop of `decode_tensor_to_hypergraph`: rows `0 … rows-1` in
increasing order, each row scanning `m` columns. -/
def decodeRows (t : ggml_tensor) (m : ℕ) : ℕ → hypergraph_t → hypergraph_t
  | 0, hg => hg
  | r + 1, hg => decodeRowCols t r m (decodeRows t m r hg)

/-- `decode_tensor_to_hypergraph` (cognitive-tensors.c lines 273-298):
`min_size = min hg.node_count tensor.ne0`; both loops run to `min_size`; the
function returns `0` (its `-1` path exists only for null arguments, which the
model's types exclude). -/
def decode_tensor_to_hypergraph (t : ggml_tensor) (hg : hypergraph_t) :
    ℤ × hypergraph_t :=
  (0, decodeRows t (min hg.node_count t.ne0) (min hg.node_count t.ne0) hg)

/-! ## Memory pool (`opencog-ggml-bridge.c`, lines 17-102) -/

def TENSOR_POOL_SIZE : ℕ := 1024

def TENSOR_BLOCK_SIZE : ℕ := 16384

/-- `TensorMemoryPool` (opencog-ggml-bridge.c lines 21-29).  The C `blocks`
array of buffer pointers is not itself modelled; `pool_ready` models the
lazy-init test `tensor_pool.blocks[0] != NULL`.  `free_blocks` and
`allocated_blocks` are the two index arrays with their logical sizes
`free_count` and `allocated_count`. -/
structure TensorMemoryPool where
  pool_ready : Bool
  free_blocks : ℕ → ℕ
  allocated_blocks : ℕ → ℕ
  free_count : ℕ
  allocated_count : ℕ
  total_allocated : ℕ
  peak_usage : ℕ

/-- The `static TensorMemoryPool tensor_pool = {0}` initial state
(opencog-ggml-bridge.c line 31). -/
def zero_pool : TensorMemoryPool :=
  { pool_ready := false, free_blocks := fun _ => 0, allocated_blocks := fun _ => 0,
    free_count := 0, allocated_count := 0, total_allocated := 0, peak_usage := 0 }

/-- `init_tensor_pool` (opencog-ggml-bridge.c lines 34-43): all blocks free,
`free_blocks[i] = i`. -/
def init_tensor_pool : TensorMemoryPool :=
  { pool_ready := true, free_blocks := fun i => i, allocated_blocks := fun _ => 0,
    free_count := TENSOR_POOL_SIZE, allocated_count := 0,
    total_allocated := 0, peak_usage := 0 }

/-- Where a tensor's data buffer came from: a pool block, or the
`aligned_alloc` fallback path. -/
inductive AllocSource where
  | pooled (block_idx : ℕ)
  | fallback
deriving DecidableEq

/-- `ggml_new_tensor_2d_optimized` (opencog-ggml-bridge.c lines 62-102).
Lazy init when the pool is not ready; `data_size = ne0*ne1*sizeof(float)`;
pooled path pops `free_blocks[--free_count]`, pushes it on
`allocated_blocks[allocated_count++]` and bumps the usage counters; otherwise
the fallback `aligned_alloc` path (assumed to succeed) leaves the pool
untouched.  The returned tensor's buffer is `memset` to zero either way. -/
def ggml_new_tensor_2d_optimized (pool0 : TensorMemoryPool) (ty : ℤ)
    (n0 n1 : ℕ) : (ggml_tensor × AllocSource) × TensorMemoryPool :=
  let pool := if pool0.pool_ready then pool0 else init_tensor_pool
  let data_size := n0 * n1 * 4
  if data_size ≤ TENSOR_BLOCK_SIZE ∧ 0 < pool.free_count then
    let block_idx := pool.free_blocks (pool.free_count - 1)
    ((ggml_new_tensor_2d ty n0 n1, AllocSource.pooled block_idx),
     { pool with
        free_count := pool.free_count - 1,
        allocated_blocks :=
          Function.update pool.allocated_blocks pool.allocated_count block_idx,
        allocated_count := pool.allocated_count + 1,
        total_allocated := pool.total_allocated + data_size,
        peak_usage := max pool.peak_usage (pool.total_allocated + data_size) })
  else
    ((ggml_new_tensor_2d ty n0 n1, AllocSource.fallback), pool)

/-- `ggml_mul_simd` (opencog-ggml-bridge.c lines 105-132).  Like `ggml_mul`
it performs no shape comparison; the AVX main loop and the scalar remainder
loop both compute `a_data[i] * b_data[i]`, so every cell `i < a.ne0*a.ne1`
holds that product (reading past `b`'s buffer when `b` is smaller).  The
result buffer comes from the pool allocator. -/
def ggml_mul_simd (pool : TensorMemoryPool) (a b : ggml_tensor) :
    Option ggml_tensor × TensorMemoryPool :=
  let r := ggml_new_tensor_2d_optimized pool 0 a.ne0 a.ne1
  (some { r.1.1 with
      data := fun i => if i < a.ne0 * a.ne1 then a.data i * b.data i else 0 },
   r.2)

/-! ## Mock AtomSpace (`opencog-ggml-bridge.c`, lines 164-247) -/

/-- `TruthValue` (opencog-ggml-bridge.c lines 164-168); the `type` field is
never read and is omitted. -/
structure TruthValue where
  mean : ℚ
  confidence : ℚ

/-- `Atom` (opencog-ggml-bridge.c lines 170-175).  The `truth_value` and
`name` pointers may be null, hence `Option`. -/
structure Atom where
  id : ℤ
  type : ℤ
  truth_value : Option TruthValue
  name : Option String

/-- `AtomSpace` (opencog-ggml-bridge.c lines 177-181): `atoms` is the pointer
array (cells may be null), its length is the C `count` field. -/
structure AtomSpace where
  atoms : List (Option Atom)
  capacity : ℕ

def ATOM_TYPE_CONCEPT : ℤ := 1

/-- `create_atom` (opencog-ggml-bridge.c lines 216-227).  The C `id` comes
from `rand() % 10000`; no verified operation reads it, so it is modelled as
`0`. -/
def create_atom (ty : ℤ) (nm : Option String) (mean confidence : ℚ) : Atom :=
  { id := 0, type := ty, truth_value := some { mean := mean, confidence := confidence },
    name := nm }

/-- `add_atom_to_space` (opencog-ggml-bridge.c lines 229-233): appends only
while `count < capacity`. -/
def add_atom_to_space (as : AtomSpace) (atom : Atom) : AtomSpace :=
  if as.atoms.length < as.capacity then { as with atoms := as.atoms ++ [some atom] }
  else as

/-- `tensor_to_atomspace` (opencog-ggml-bridge.c lines 273-304): frees every
existing atom and resets `count` to 0, then for
`i = 0 … min(tensor_size, capacity) - 1` in increasing order creates a
`concept_<i>` atom with mean `data[i]` and confidence `0.8` whenever
`data[i] > 0.01`. -/
def tensor_to_atomspace (t : ggml_tensor) (as : AtomSpace) : AtomSpace :=
  (List.range (min (t.ne0 * t.ne1) as.capacity)).foldl
    (fun s i =>
      if (1/100 : ℚ) < t.data i then
        add_atom_to_space s
          (create_atom ATOM_TYPE_CONCEPT (some ("concept_" ++ toString i))
            (t.data i) (4/5))
      else s)
    { as with atoms := [] }

/-- `create_attention_tensor` (opencog-ggml-bridge.c lines 306-347):
`node_count` is the atom count, defaulting to 64 when the store is empty.
Cell `(i, j)` (flat index `k = i*node_count + j`, so `i = k / node_count`,
`j = k % node_count`) is the attention weight on the diagonal; when
`i < count && j < count` it is the similarity value when both atom pointers
and both truth values are non-null and `0.1 * weight` otherwise; all other
cells are `0.0`. -/
def create_attention_tensor (as : AtomSpace) (attention_weight : ℚ) : ggml_tensor :=
  let node_count := if as.atoms.length = 0 then 64 else as.atoms.length
  { ggml_new_tensor_2d 0 node_count node_count with
    data := fun k =>
      if k < node_count * node_count then
        let i := k / node_count
        let j := k % node_count
        if i = j then attention_weight
        else if i < as.atoms.length ∧ j < as.atoms.length then
          match as.atoms.getD i none, as.atoms.getD j none with
          | some atom_i, some atom_j =>
            match atom_i.truth_value, atom_j.truth_value with
            | some tv_i, some tv_j =>
              (1 - |tv_i.mean - tv_j.mean|) * attention_weight * (1/2)
            | _, _ => (1/10) * attention_weight
          | _, _ => (1/10) * attention_weight
        else 0
      else 0 }

/-! ## Spec-side helper definitions and concrete witness inputs -/

/-- Weight-update half of the decode loop body, as the claim describes it:
for a visited cell `c = (i, j)` with value `v > 0`, `node_weights[i]` and
then `node_weights[j]` are each replaced by `(old + v) * 0.5`, once per
visited cell.  `decodeStep` is proved to act on `node_weights` exactly like
this function. -/
def wstep (t : ggml_tensor) (c : ℕ × ℕ) (w : ℕ → ℚ) : ℕ → ℚ :=
  let v := t.data (c.1 * t.ne1 + c.2)
  if 0 < v then
    let w1 := Function.update w c.1 ((w c.1 + v) * (1/2))
    Function.update w1 c.2 ((w1 c.2 + v) * (1/2))
  else w

/-- Weight updates of one decode row `i`, columns `0 … cols-1` in order. -/
def wRowCols (t : ggml_tensor) (i : ℕ) : ℕ → (ℕ → ℚ) → (ℕ → ℚ)
  | 0, w => w
  | c + 1, w => wstep t (i, c) (wRowCols t i c w)

/-- Weight updates of decode rows `0 … rows-1` in order, `m` columns each. -/
def wRows (t : ggml_tensor) (m : ℕ) : ℕ → (ℕ → ℚ) → (ℕ → ℚ)
  | 0, w => w
  | r + 1, w => wRowCols t r m (wRows t m r w)

/-- Pool state after a sequence of `ggml_new_tensor_2d_optimized` calls with
the given extent pairs (type tag 0, as at every call site). -/
def run_allocs (ps : List (ℕ × ℕ)) (pool : TensorMemoryPool) : TensorMemoryPool :=
  ps.foldl (fun p q => (ggml_new_tensor_2d_optimized p 0 q.1 q.2).2) pool

/-- Concrete kernel used by the claim C8 witness. -/
def kernelW : cognitive_kernel_t :=
  { tensor_field := ggml_new_tensor_2d 0 1 1, attention_weight := 1/2,
    meta_level := 0, kernel_id := 0 }

/-- Concrete input tensor used by several witnesses. -/
def inputW : ggml_tensor :=
  { ne0 := 2, ne1 := 1, ne2 := 1, ne3 := 1, type := 0, data := fun i => (i : ℚ) + 2 }

/-- Concrete 2×2 all-ones tensor for claim C3. -/
def aC3 : ggml_tensor :=
  { ne0 := 2, ne1 := 2, ne2 := 1, ne3 := 1, type := 0, data := fun _ => 1 }

/-- Concrete 1×1 tensor for claim C3: its single in-bounds cell (index 0)
holds `5`; the function's values at indices `≥ 1` model whatever memory lies
past the end of the 1-element buffer, here `7`. -/
def bC3 : ggml_tensor :=
  { ne0 := 1, ne1 := 1, ne2 := 1, ne3 := 1, type := 0, data := fun i => if i = 0 then 5 else 7 }

/-- Same 1×1 tensor as `bC3` except for the modelled out-of-bounds memory
(`9` instead of `7` at indices `≥ 1`); `bC3` and `bC3x` agree on every
in-bounds index of the 1×1 shape. -/
def bC3x : ggml_tensor :=
  { ne0 := 1, ne1 := 1, ne2 := 1, ne3 := 1, type := 0, data := fun i => if i = 0 then 5 else 9 }

/-- Concrete hypergraph for the claim C1 witness: 2 nodes, symmetric
adjacency `(0,1)`/`(1,0)`, all node weights `1`. -/
def hgW : hypergraph_t :=
  { node_count := 2, link_count := 1,
    node_weights := fun _ => 1, link_weights := fun _ => 0,
    adjacency_matrix := fun k => if k = 1 ∨ k = 2 then 1 else 0 }

/-- Concrete two-atom store for the claim C4 witness. -/
def asW : AtomSpace :=
  { atoms := [some (create_atom ATOM_TYPE_CONCEPT (some "a") (9/10) (4/5)),
              some (create_atom ATOM_TYPE_CONCEPT (some "b") (7/10) (9/10))],
    capacity := 1000 }

/-- Concrete 1×1 pattern of value `3` for the claim C7 witness. -/
def patternW : ggml_tensor :=
  { ne0 := 1, ne1 := 1, ne2 := 1, ne3 := 1, type := 0, data := fun _ => 3 }

/-- Concrete uniform 2×3 data tensor of value `5` for the claim C7 witness. -/
def dataW : ggml_tensor :=
  { ne0 := 2, ne1 := 3, ne2 := 1, ne3 := 1, type := 0, data := fun _ => 5 }

/-! ## Claim C8: attention-weight update validation -/

/-- Claim C8: for every live kernel and weight `w`, `update_kernel_attention`
returns the error code `-1` and leaves the kernel unchanged exactly when `w`
is outside `[0,1]` (in particular for `-0.1` and `1.1`), and otherwise
returns `0` and replaces `attention_weight` by `w` in place (in particular
it accepts exactly `0` and `1`). -/
theorem claim_C8 (kernel : cognitive_kernel_t) (w : ℚ) :
    ((update_kernel_attention kernel w).1 = -1 ↔ (w < 0 ∨ 1 < w)) ∧
    ((w < 0 ∨ 1 < w) → update_kernel_attention kernel w = (-1, kernel)) ∧
    (0 ≤ w → w ≤ 1 →
      update_kernel_attention kernel w = (0, { kernel with attention_weight := w })) ∧
    update_kernel_attention kernel (-(1/10)) = (-1, kernel) ∧
    update_kernel_attention kernel (11/10) = (-1, kernel) ∧
    (update_kernel_attention kernel 0).1 = 0 ∧
    (update_kernel_attention kernel 0).2.attention_weight = 0 ∧
    (update_kernel_attention kernel 1).1 = 0 ∧
    (update_kernel_attention kernel 1).2.attention_weight = 1 := by
  by_cases hout : w < 0 ∨ 1 < w
  · refine ⟨?_, fun _ => ?_, fun h0 h1 => absurd hout ?_, ?_, ?_, ?_, ?_, ?_, ?_⟩ <;>
      simp [update_kernel_attention, hout] <;> norm_num
    rcases hout with h | h
    · exact absurd h (not_lt.mpr h0)
    · exact absurd h (not_lt.mpr h1)
  · refine ⟨?_, fun h => absurd h hout, fun _ _ => ?_, ?_, ?_, ?_, ?_, ?_, ?_⟩ <;>
      simp [update_kernel_attention, hout] <;> norm_num

/-- Witness for claim C8 at the concrete kernel `kernelW` and weight `3/2`. -/
theorem claim_C8_witness :
    ((3/2 : ℚ) < 0 ∨ (1 : ℚ) < 3/2) ∧
    update_kernel_attention kernelW (3/2) = (-1, kernelW) :=
  ⟨Or.inr (by norm_num), (claim_C8 kernelW (3/2)).2.1 (Or.inr (by norm_num))⟩

/-! ## Claim C5: level-0 meta-transform is the identity -/

/-- Claim C5: for every input tensor, `meta_cognitive_transform input 0`
returns a tensor equal to `input` at every element: the scaling factor is
exactly `1 + 0*0.2 = 1` and the oscillation term vanishes because
`sinf 0 = 0`. -/
theorem claim_C5 (sinf : ℚ → ℚ) (input : ggml_tensor)
    (hs : sinf 0 = 0) (h2 : input.ne2 = 1) (h3 : input.ne3 = 1) :
    (meta_cognitive_transform sinf input 0).ne0 = input.ne0 ∧
    (meta_cognitive_transform sinf input 0).ne1 = input.ne1 ∧
    (meta_cognitive_transform sinf input 0).ne2 = input.ne2 ∧
    (meta_cognitive_transform sinf input 0).ne3 = input.ne3 ∧
    ∀ i, i < input.ne0 * input.ne1 →
      (meta_cognitive_transform sinf input 0).data i = input.data i := by
  refine ⟨rfl, rfl, by rw [h2]; rfl, by rw [h3]; rfl, fun i hi => ?_⟩
  show (if i < input.ne0 * input.ne1 then
          input.data i * (1 + ((0 : ℤ) : ℚ) * (1/5)) *
            (1 + (1/10) * sinf ((i : ℚ) * ((0 : ℤ) : ℚ) * (1/100)))
        else 0) = input.data i
  rw [if_pos hi]
  have harg : ((i : ℚ) * ((0 : ℤ) : ℚ) * (1/100)) = 0 := by push_cast; ring
  rw [harg, hs]
  push_cast
  ring

/-- Witness for claim C5 at `sinf = fun _ => 0` and the concrete `inputW`. -/
theorem claim_C5_witness :
    ((fun _ : ℚ => (0 : ℚ)) 0 = 0 ∧ inputW.ne2 = 1 ∧ inputW.ne3 = 1) ∧
    ((meta_cognitive_transform (fun _ => 0) inputW 0).ne0 = inputW.ne0 ∧
     (meta_cognitive_transform (fun _ => 0) inputW 0).ne1 = inputW.ne1 ∧
     (meta_cognitive_transform (fun _ => 0) inputW 0).ne2 = inputW.ne2 ∧
     (meta_cognitive_transform (fun _ => 0) inputW 0).ne3 = inputW.ne3 ∧
     ∀ i, i < inputW.ne0 * inputW.ne1 →
       (meta_cognitive_transform (fun _ => 0) inputW 0).data i = inputW.data i) :=
  ⟨⟨rfl, rfl, rfl⟩, claim_C5 (fun _ => 0) inputW rfl rfl rfl⟩

/-! ## Claim C6: attention-matrix cell formula -/

/-- Claim C6: `cognitive_attention_matrix input w` yields a tensor with
`input`'s extents whose cell at row-major index `i` equals
`input[i] * w * (1 + 0.1 * sinf(0.1 * i))`; the model's arithmetic is exact,
so the difference is `0`, within the claimed tolerance `1e-5`. -/
theorem claim_C6 (sinf : ℚ → ℚ) (input : ggml_tensor) (w : ℚ)
    (h2 : input.ne2 = 1) (h3 : input.ne3 = 1) :
    ∃ out, cognitive_attention_matrix sinf input w = some out ∧
      out.ne0 = input.ne0 ∧ out.ne1 = input.ne1 ∧
      out.ne2 = input.ne2 ∧ out.ne3 = input.ne3 ∧
      ∀ i, i < input.ne0 * input.ne1 →
        |out.data i - input.data i * w * (1 + (1/10) * sinf ((1/10) * (i : ℚ)))|
          ≤ 1/100000 := by
  refine ⟨_, rfl, rfl, rfl, by rw [h2]; rfl, by rw [h3]; rfl, fun i hi => ?_⟩
  show |(if i < input.ne0 * input.ne1 then
           input.data i *
             (if i < input.ne0 * input.ne1 then
                w * (1 + (1/10) * sinf ((i : ℚ) * (1/10)))
              else 0)
         else 0)
        - input.data i * w * (1 + (1/10) * sinf ((1/10) * (i : ℚ)))| ≤ 1/100000
  rw [if_pos hi, if_pos hi, mul_comm (i : ℚ) (1/10)]
  have hz : input.data i * (w * (1 + (1/10) * sinf ((1/10) * (i : ℚ))))
      - input.data i * w * (1 + (1/10) * sinf ((1/10) * (i : ℚ))) = 0 := by ring
  rw [hz]
  norm_num

/-- Witness for claim C6 at `sinf = fun _ => 0`, input `inputW`, weight `1/3`. -/
theorem claim_C6_witness :
    (inputW.ne2 = 1 ∧ inputW.ne3 = 1) ∧
    (∃ out, cognitive_attention_matrix (fun _ => 0) inputW (1/3) = some out ∧
      out.ne0 = inputW.ne0 ∧ out.ne1 = inputW.ne1 ∧
      out.ne2 = inputW.ne2 ∧ out.ne3 = inputW.ne3 ∧
      ∀ i, i < inputW.ne0 * inputW.ne1 →
        |out.data i - inputW.data i * (1/3) * (1 + (1/10) * (fun _ : ℚ => (0 : ℚ)) ((1/10) * (i : ℚ)))|
          ≤ 1/100000) :=
  ⟨⟨rfl, rfl⟩, claim_C6 (fun _ => 0) inputW (1/3) rfl rfl⟩

/-! ## Decode loop characterization -/

theorem decodeStep_node_count (t : ggml_tensor) (hg : hypergraph_t) (c : ℕ × ℕ) :
    (decodeStep t hg c).node_count = hg.node_count := by
  by_cases h : 0 < t.data (c.1 * t.ne1 + c.2) <;> simp [decodeStep, h]

theorem decodeStep_link_count (t : ggml_tensor) (hg : hypergraph_t) (c : ℕ × ℕ) :
    (decodeStep t hg c).link_count = hg.link_count := by
  by_cases h : 0 < t.data (c.1 * t.ne1 + c.2) <;> simp [decodeStep, h]

theorem decodeStep_link_weights (t : ggml_tensor) (hg : hypergraph_t) (c : ℕ × ℕ) :
    (decodeStep t hg c).link_weights = hg.link_weights := by
  by_cases h : 0 < t.data (c.1 * t.ne1 + c.2) <;> simp [decodeStep, h]

theorem decodeStep_adj (t : ggml_tensor) (hg : hypergraph_t) (c : ℕ × ℕ) :
    (decodeStep t hg c).adjacency_matrix =
      Function.update hg.adjacency_matrix (c.1 * hg.node_count + c.2)
        (if (1/2 : ℚ) < t.data (c.1 * t.ne1 + c.2) then 1 else 0) := by
  by_cases h : 0 < t.data (c.1 * t.ne1 + c.2) <;> simp [decodeStep, h]

theorem decodeStep_weights (t : ggml_tensor) (hg : hypergraph_t) (c : ℕ × ℕ) :
    (decodeStep t hg c).node_weights = wstep t c hg.node_weights := by
  by_cases h : 0 < t.data (c.1 * t.ne1 + c.2) <;> simp [decodeStep, wstep, h]

theorem decodeRowCols_node_count (t : ggml_tensor) (i c : ℕ) (hg : hypergraph_t) :
    (decodeRowCols t i c hg).node_count = hg.node_count := by
  induction c with
  | zero => rfl
  | succ c ih =>
    show (decodeStep t (decodeRowCols t i c hg) (i, c)).node_count = hg.node_count
    rw [decodeStep_node_count, ih]

theorem decodeRowCols_link_count (t : ggml_tensor) (i c : ℕ) (hg : hypergraph_t) :
    (decodeRowCols t i c hg).link_count = hg.link_count := by
  induction c with
  | zero => rfl
  | succ c ih =>
    show (decodeStep t (decodeRowCols t i c hg) (i, c)).link_count = hg.link_count
    rw [decodeStep_link_count, ih]

theorem decodeRowCols_link_weights (t : ggml_tensor) (i c : ℕ) (hg : hypergraph_t) :
    (decodeRowCols t i c hg).link_weights = hg.link_weights := by
  induction c with
  | zero => rfl
  | succ c ih =>
    show (decodeStep t (decodeRowCols t i c hg) (i, c)).link_weights = hg.link_weights
    rw [decodeStep_link_weights, ih]

theorem decodeRowCols_weights (t : ggml_tensor) (i c : ℕ) (hg : hypergraph_t) :
    (decodeRowCols t i c hg).node_weights = wRowCols t i c hg.node_weights := by
  induction c with
  | zero => rfl
  | succ c ih =>
    show (decodeStep t (decodeRowCols t i c hg) (i, c)).node_weights
        = wstep t (i, c) (wRowCols t i c hg.node_weights)
    rw [decodeStep_weights, ih]

theorem decodeRowCols_adj (t : ggml_tensor) (i c : ℕ) (hg : hypergraph_t) (p : ℕ) :
    (decodeRowCols t i c hg).adjacency_matrix p =
      if i * hg.node_count ≤ p ∧ p < i * hg.node_count + c then
        (if (1/2 : ℚ) < t.data (i * t.ne1 + (p - i * hg.node_count)) then 1 else 0)
      else hg.adjacency_matrix p := by
  induction c with
  | zero =>
    rw [if_neg]
    · rfl
    · rintro ⟨h1, h2⟩
      omega
  | succ c ih =>
    show (decodeStep t (decodeRowCols t i c hg) (i, c)).adjacency_matrix p = _
    rw [decodeStep_adj, decodeRowCols_node_count, Function.update_apply]
    by_cases hp : p = i * hg.node_count + c
    · have hsub : p - i * hg.node_count = c := by omega
      have hcond : i * hg.node_count ≤ p ∧ p < i * hg.node_count + (c + 1) := by omega
      rw [if_pos hp, if_pos hcond, hsub]
    · rw [if_neg hp, ih]
      by_cases hc : i * hg.node_count ≤ p ∧ p < i * hg.node_count + c
      · have hcond : i * hg.node_count ≤ p ∧ p < i * hg.node_count + (c + 1) := by omega
        rw [if_pos hc, if_pos hcond]
      · have hcond : ¬(i * hg.node_count ≤ p ∧ p < i * hg.node_count + (c + 1)) := by
          omega
        rw [if_neg hc, if_neg hcond]

theorem decodeRows_node_count (t : ggml_tensor) (m r : ℕ) (hg : hypergraph_t) :
    (decodeRows t m r hg).node_count = hg.node_count := by
  induction r with
  | zero => rfl
  | succ r ih =>
    show (decodeRowCols t r m (decodeRows t m r hg)).node_count = hg.node_count
    rw [decodeRowCols_node_count, ih]

theorem decodeRows_link_count (t : ggml_tensor) (m r : ℕ) (hg : hypergraph_t) :
    (decodeRows t m r hg).link_count = hg.link_count := by
  induction r with
  | zero => rfl
  | succ r ih =>
    show (decodeRowCols t r m (decodeRows t m r hg)).link_count = hg.link_count
    rw [decodeRowCols_link_count, ih]

theorem decodeRows_link_weights (t : ggml_tensor) (m r : ℕ) (hg : hypergraph_t) :
    (decodeRows t m r hg).link_weights = hg.link_weights := by
  induction r with
  | zero => rfl
  | succ r ih =>
    show (decodeRowCols t r m (decodeRows t m r hg)).link_weights = hg.link_weights
    rw [decodeRowCols_link_weights, ih]

theorem decodeRows_weights (t : ggml_tensor) (m r : ℕ) (hg : hypergraph_t) :
    (decodeRows t m r hg).node_weights = wRows t m r hg.node_weights := by
  induction r with
  | zero => rfl
  | succ r ih =>
    show (decodeRowCols t r m (decodeRows t m r hg)).node_weights
        = wRowCols t r m (wRows t m r hg.node_weights)
    rw [decodeRowCols_weights, ih]

/-- Row-band decomposition of a flat index: for `m ≤ N`, the indices written
by decode row `r` (positions `r*N … r*N+m-1`) are exactly those with
`p / N = r` and `p % N < m`. -/
theorem row_band (N m r p : ℕ) (hm : m ≤ N) :
    (r * N ≤ p ∧ p < r * N + m) ↔ (p / N = r ∧ p % N < m) := by
  rcases Nat.eq_zero_or_pos N with h0 | hN
  · subst h0
    simp only [Nat.mul_zero, Nat.zero_add, Nat.mod_zero, Nat.div_zero]
    omega
  · have hdm := Nat.div_add_mod p N
    constructor
    · rintro ⟨h1, h2⟩
      have hup : p < (r + 1) * N := by
        rw [Nat.succ_mul]
        exact lt_of_lt_of_le h2 (Nat.add_le_add_left hm _)
      have hq : p / N = r := Nat.div_eq_of_lt_le h1 hup
      rw [hq] at hdm
      refine ⟨hq, ?_⟩
      rw [Nat.mul_comm r N] at h2
      obtain ⟨a, ha⟩ : ∃ a, N * r = a := ⟨_, rfl⟩
      rw [ha] at hdm h2
      omega
    · rintro ⟨hq, hs⟩
      rw [hq] at hdm
      rw [Nat.mul_comm r N]
      obtain ⟨a, ha⟩ : ∃ a, N * r = a := ⟨_, rfl⟩
      rw [ha] at hdm ⊢
      omega

theorem decodeRows_adj (t : ggml_tensor) (m r : ℕ) (hg : hypergraph_t) (p : ℕ)
    (hm : m ≤ hg.node_count) :
    (decodeRows t m r hg).adjacency_matrix p =
      if p / hg.node_count < r ∧ p % hg.node_count < m then
        (if (1/2 : ℚ) < t.data ((p / hg.node_count) * t.ne1 + p % hg.node_count)
         then 1 else 0)
      else hg.adjacency_matrix p := by
  induction r with
  | zero =>
    rw [if_neg]
    · rfl
    · rintro ⟨h1, _⟩
      exact absurd h1 (Nat.not_lt_zero _)
  | succ r ih =>
    show (decodeRowCols t r m (decodeRows t m r hg)).adjacency_matrix p = _
    rw [decodeRowCols_adj, decodeRows_node_count, ih]
    by_cases hband : r * hg.node_count ≤ p ∧ p < r * hg.node_count + m
    · obtain ⟨hq, hs⟩ := (row_band hg.node_count m r p hm).mp hband
      have hsub : p - r * hg.node_count = p % hg.node_count := by
        have hdm := Nat.div_add_mod p hg.node_count
        rw [hq] at hdm
        conv_lhs => rw [← hdm]
        rw [Nat.mul_comm hg.node_count r, Nat.add_sub_cancel_left]
      rw [if_pos hband, hsub, hq]
      have hcond : r < r + 1 ∧ p % hg.node_count < m := ⟨Nat.lt_succ_self r, hs⟩
      rw [if_pos hcond]
    · rw [if_neg hband]
      by_cases hc : p / hg.node_count < r ∧ p % hg.node_count < m
      · have hcond : p / hg.node_count < r + 1 ∧ p % hg.node_count < m :=
          ⟨Nat.lt_succ_of_lt hc.1, hc.2⟩
        rw [if_pos hc, if_pos hcond]
      · have hc2 : ¬(p / hg.node_count < r + 1 ∧ p % hg.node_count < m) := by
          rintro ⟨h1, h2⟩
          have hq : p / hg.node_count = r := by
            rcases Nat.lt_succ_iff_lt_or_eq.mp h1 with h | h
            · exact absurd ⟨h, h2⟩ hc
            · exact h
          exact hband ((row_band hg.node_count m r p hm).mpr ⟨hq, h2⟩)
        rw [if_neg hc, if_neg hc2]

/-! ## Claim C2: full characterization of decode -/

/-- Claim C2: for every tensor and hypergraph (non-null by typing), decode
visits exactly the first `min hg.node_count t.ne0` rows and columns; at each
visited cell it sets `adjacency[i*N + j]` to `1` iff the cell value exceeds
`0.5` (else `0`) and leaves every other adjacency entry unchanged (stated
below through the flat-index decomposition `i = p / N`, `j = p % N`); its
node weights are exactly the row-major fold of the once-per-visited-cell
averaging rule `wRows`/`wstep`; and it returns the success code `0`
unconditionally, so no error is raised for a size mismatch. -/
theorem claim_C2 (t : ggml_tensor) (hg : hypergraph_t) :
    (decode_tensor_to_hypergraph t hg).1 = 0 ∧
    (decode_tensor_to_hypergraph t hg).2.node_count = hg.node_count ∧
    (decode_tensor_to_hypergraph t hg).2.link_count = hg.link_count ∧
    (decode_tensor_to_hypergraph t hg).2.link_weights = hg.link_weights ∧
    (∀ p, (decode_tensor_to_hypergraph t hg).2.adjacency_matrix p =
      if p / hg.node_count < min hg.node_count t.ne0 ∧
         p % hg.node_count < min hg.node_count t.ne0 then
        (if (1/2 : ℚ) < t.data ((p / hg.node_count) * t.ne1 + p % hg.node_count)
         then 1 else 0)
      else hg.adjacency_matrix p) ∧
    (decode_tensor_to_hypergraph t hg).2.node_weights
      = wRows t (min hg.node_count t.ne0) (min hg.node_count t.ne0) hg.node_weights := by
  refine ⟨rfl, decodeRows_node_count t _ _ hg, decodeRows_link_count t _ _ hg,
    decodeRows_link_weights t _ _ hg,
    fun p => decodeRows_adj t _ _ hg p (Nat.min_le_left _ _),
    decodeRows_weights t _ _ hg⟩

/-! ## Claim C1: encode/decode round trip on the adjacency matrix -/

/-- Claim C1: for a hypergraph whose adjacency entries are all `0` or `1` and
whose node weights all equal `w`, decoding `encode hg` into a fresh
hypergraph of equal node count reproduces the adjacency matrix exactly when
`w > 0.5`, and yields an all-zero adjacency matrix when `w ≤ 0.5`. -/
theorem claim_C1 (hg : hypergraph_t) (L : ℕ) (w : ℚ)
    (hadj : ∀ k, k < hg.node_count * hg.node_count →
      hg.adjacency_matrix k = 0 ∨ hg.adjacency_matrix k = 1)
    (hw : ∀ i, i < hg.node_count → hg.node_weights i = w) :
    ((1/2 : ℚ) < w →
      ∀ k, k < hg.node_count * hg.node_count →
        (decode_tensor_to_hypergraph (encode_hypergraph_to_tensor hg)
          (create_hypergraph hg.node_count L)).2.adjacency_matrix k
          = hg.adjacency_matrix k) ∧
    (w ≤ 1/2 →
      ∀ k,
        (decode_tensor_to_hypergraph (encode_hypergraph_to_tensor hg)
          (create_hypergraph hg.node_count L)).2.adjacency_matrix k = 0) := by
  have hres : (decode_tensor_to_hypergraph (encode_hypergraph_to_tensor hg)
        (create_hypergraph hg.node_count L)).2
      = decodeRows (encode_hypergraph_to_tensor hg) hg.node_count hg.node_count
          (create_hypergraph hg.node_count L) := by
    show decodeRows (encode_hypergraph_to_tensor hg)
        (min hg.node_count hg.node_count) (min hg.node_count hg.node_count)
        (create_hypergraph hg.node_count L) = _
    rw [Nat.min_self]
  have hAdj : ∀ k,
      (decode_tensor_to_hypergraph (encode_hypergraph_to_tensor hg)
        (create_hypergraph hg.node_count L)).2.adjacency_matrix k =
      if k / hg.node_count < hg.node_count ∧ k % hg.node_count < hg.node_count then
        (if (1/2 : ℚ) < (encode_hypergraph_to_tensor hg).data
            ((k / hg.node_count) * hg.node_count + k % hg.node_count)
         then 1 else 0)
      else 0 := by
    intro k
    rw [hres,
      decodeRows_adj (encode_hypergraph_to_tensor hg) hg.node_count hg.node_count
        (create_hypergraph hg.node_count L) k (Nat.le_refl hg.node_count)]
    rfl
  have hval : ∀ k, k < hg.node_count * hg.node_count →
      k / hg.node_count < hg.node_count ∧ k % hg.node_count < hg.node_count ∧
      (encode_hypergraph_to_tensor hg).data
          ((k / hg.node_count) * hg.node_count + k % hg.node_count)
        = (hg.adjacency_matrix k : ℚ) * w := by
    intro k hk
    have hN : 0 < hg.node_count := by
      rcases Nat.eq_zero_or_pos hg.node_count with h | h
      · rw [h, Nat.mul_zero] at hk
        exact absurd hk (Nat.not_lt_zero _)
      · exact h
    have hdiv : k / hg.node_count < hg.node_count :=
      (Nat.div_lt_iff_lt_mul hN).mpr hk
    have hmod : k % hg.node_count < hg.node_count := Nat.mod_lt _ hN
    have hidx : k / hg.node_count * hg.node_count + k % hg.node_count = k := by
      rw [Nat.mul_comm]
      exact Nat.div_add_mod k hg.node_count
    refine ⟨hdiv, hmod, ?_⟩
    rw [hidx]
    show (if k < hg.node_count * hg.node_count then
        (hg.adjacency_matrix k : ℚ) *
          ((hg.node_weights (k / hg.node_count) + hg.node_weights (k % hg.node_count)) * (1/2))
      else 0) = (hg.adjacency_matrix k : ℚ) * w
    rw [if_pos hk, hw _ hdiv, hw _ hmod]
    ring
  constructor
  · intro hwgt k hk
    obtain ⟨hdiv, hmod, hv⟩ := hval k hk
    rw [hAdj k, if_pos ⟨hdiv, hmod⟩, hv]
    rcases hadj k hk with h0 | h1
    · rw [h0]
      norm_num
    · rw [h1]
      rw [if_pos (by norm_num; exact hwgt)]
  · intro hwgt k
    by_cases hcond : k / hg.node_count < hg.node_count ∧ k % hg.node_count < hg.node_count
    · have hN : 0 < hg.node_count := by
        rcases Nat.eq_zero_or_pos hg.node_count with h | h
        · rw [h] at hcond
          simp only [Nat.div_zero] at hcond
          exact absurd hcond.1 (Nat.not_lt_zero _)
        · exact h
      have hk : k < hg.node_count * hg.node_count :=
        (Nat.div_lt_iff_lt_mul hN).mp hcond.1
      obtain ⟨hdiv, hmod, hv⟩ := hval k hk
      rw [hAdj k, if_pos ⟨hdiv, hmod⟩, hv]
      rcases hadj k hk with h0 | h1
      · rw [h0]
        norm_num
      · rw [h1, if_neg]
        have hone : ((1 : ℤ) : ℚ) * w = w := by push_cast; ring
        rw [hone]
        exact not_lt.mpr hwgt
    · rw [hAdj k, if_neg hcond]

/-- Witness for claim C1 at the concrete hypergraph `hgW` (2 nodes, symmetric
adjacency pair, all weights 1 > 0.5). -/
theorem claim_C1_witness :
    ((∀ k, k < hgW.node_count * hgW.node_count →
        hgW.adjacency_matrix k = 0 ∨ hgW.adjacency_matrix k = 1) ∧
     (∀ i, i < hgW.node_count → hgW.node_weights i = 1) ∧
     (1/2 : ℚ) < 1 ∧ 1 < hgW.node_count * hgW.node_count) ∧
    (decode_tensor_to_hypergraph (encode_hypergraph_to_tensor hgW)
      (create_hypergraph hgW.node_count 1)).2.adjacency_matrix 1
      = hgW.adjacency_matrix 1 :=
  ⟨⟨by decide, fun i _ => rfl, by norm_num, by decide⟩,
   (claim_C1 hgW 1 1 (by decide) (fun i _ => rfl)).1 (by norm_num) 1 (by decide)⟩

/-! ## Claim C3: no shape check in the elementwise operations -/

/-- Claim C3 evaluation: the elementwise operations perform no extent
comparison.  With the 2×2 tensor `aC3` and the 1×1 tensor `bC3` they return a
2×2 result (no failure signal of any kind; `ShapeMismatch` does not exist in
the code), and the cell at index 1 is `a[1] * b_data[1]` (resp. `+`), where
index 1 lies past the end of `bC3`'s 1-element buffer: changing only the
modelled out-of-bounds memory (`bC3x`) changes the result. -/
theorem claim_C3_no_shape_check :
    (∃ r, ggml_mul aC3 bC3 = some r ∧ r.ne0 = 2 ∧ r.ne1 = 2 ∧ r.data 1 = 7) ∧
    (∃ r, ggml_add aC3 bC3 = some r ∧ r.ne0 = 2 ∧ r.ne1 = 2 ∧ r.data 1 = 8) ∧
    (∃ r p2, ggml_mul_simd zero_pool aC3 bC3 = (some r, p2) ∧ r.data 1 = 7) ∧
    bC3.data 0 = bC3x.data 0 ∧
    (∃ r r2, ggml_mul aC3 bC3 = some r ∧ ggml_mul aC3 bC3x = some r2 ∧
      r.data 1 = 7 ∧ r2.data 1 = 9) := by
  refine ⟨⟨_, rfl, rfl, rfl, by norm_num [aC3, bC3]⟩,
    ⟨_, rfl, rfl, rfl, by norm_num [aC3, bC3]⟩,
    ⟨_, _, rfl, by norm_num [aC3, bC3]⟩, by norm_num [bC3, bC3x],
    ⟨_, _, rfl, rfl, by norm_num [aC3, bC3], by norm_num [aC3, bC3x]⟩⟩

/-! ## Claim C4: attention tensor from the symbolic store -/

/-- Claim C4 counterexample: for the empty store (entity count 0, so
`N = 64`) and weight `1`, the off-diagonal cell `(0, 1)` — where neither
entity exists — is `0`, not the claimed fixed low value `0.1 * 1`. -/
theorem claim_C4_counterexample :
    (create_attention_tensor { atoms := [], capacity := 1000 } 1).data 1
      ≠ (1/10) * 1 := by
  norm_num [create_attention_tensor]

/-- Claim C4 as amended: the `N×N` attention tensor (`N` = entity count, 64
when the store is empty) has the requested weight on the diagonal; an
off-diagonal cell `(i, j)` with both `i` and `j` below the entity count holds
the similarity value when both entities are present with truth values and
`0.1 * weight` otherwise; every off-diagonal cell with `i` or `j` at or
beyond the entity count holds `0` (so for an empty store all off-diagonal
cells are `0`). -/
theorem claim_C4 (as : AtomSpace) (w : ℚ) (N : ℕ)
    (hN : N = if as.atoms.length = 0 then 64 else as.atoms.length) :
    (create_attention_tensor as w).ne0 = N ∧
    (create_attention_tensor as w).ne1 = N ∧
    ∀ i j, i < N → j < N →
      (create_attention_tensor as w).data (i * N + j) =
        if i = j then w
        else if i < as.atoms.length ∧ j < as.atoms.length then
          (match as.atoms.getD i none, as.atoms.getD j none with
           | some atom_i, some atom_j =>
             (match atom_i.truth_value, atom_j.truth_value with
              | some tv_i, some tv_j => (1 - |tv_i.mean - tv_j.mean|) * w * (1/2)
              | _, _ => (1/10) * w)
           | _, _ => (1/10) * w)
        else 0 := by
  subst hN
  refine ⟨rfl, rfl, fun i j hi hj => ?_⟩
  have hNpos : 0 < if as.atoms.length = 0 then 64 else as.atoms.length := by
    by_cases h : as.atoms.length = 0
    · rw [if_pos h]
      norm_num
    · rw [if_neg h]
      exact Nat.pos_of_ne_zero h
  set M := if as.atoms.length = 0 then 64 else as.atoms.length with hM
  have hk : i * M + j < M * M := by
    calc i * M + j < i * M + M := Nat.add_lt_add_left hj _
    _ = (i + 1) * M := (Nat.succ_mul i M).symm
    _ ≤ M * M := Nat.mul_le_mul_right M hi
  have hdiv : (i * M + j) / M = i := by
    rw [Nat.mul_comm i M, Nat.mul_add_div hNpos, Nat.div_eq_of_lt hj, Nat.add_zero]
  have hmod : (i * M + j) % M = j := by
    rw [Nat.mul_comm i M, Nat.mul_add_mod, Nat.mod_eq_of_lt hj]
  show (if i * M + j < M * M then
      (if (i * M + j) / M = (i * M + j) % M then w
       else if (i * M + j) / M < as.atoms.length ∧ (i * M + j) % M < as.atoms.length then
         (match as.atoms.getD ((i * M + j) / M) none, as.atoms.getD ((i * M + j) % M) none with
          | some atom_i, some atom_j =>
            (match atom_i.truth_value, atom_j.truth_value with
             | some tv_i, some tv_j => (1 - |tv_i.mean - tv_j.mean|) * w * (1/2)
             | _, _ => (1/10) * w)
          | _, _ => (1/10) * w)
       else 0)
    else 0) = _
  rw [if_pos hk, hdiv, hmod]

/-- Witness for the amended claim C4 at the concrete two-atom store `asW`. -/
theorem claim_C4_witness :
    ((2 : ℕ) = if asW.atoms.length = 0 then 64 else asW.atoms.length) ∧
    (create_attention_tensor asW 1).ne0 = 2 :=
  ⟨by decide, (claim_C4 asW 1 2 (by decide)).1⟩

/-! ## Claim C7: clipped correlation -/

/-- Cell formula of `cognitive_pattern_match` at row/column coordinates. -/
theorem cognitive_pattern_match_cell (pattern data : ggml_tensor) (i j : ℕ)
    (hi : i < data.ne0) (hj : j < data.ne1) :
    (cognitive_pattern_match pattern data).data (i * data.ne1 + j) =
      ∑ pi ∈ Finset.range (min pattern.ne0 (data.ne0 - i)),
        ∑ pj ∈ Finset.range (min pattern.ne1 (data.ne1 - j)),
          pattern.data (pi * pattern.ne1 + pj) *
            data.data ((i + pi) * data.ne1 + (j + pj)) := by
  have hn1 : 0 < data.ne1 := lt_of_le_of_lt (Nat.zero_le j) hj
  have hk : i * data.ne1 + j < data.ne0 * data.ne1 := by
    calc i * data.ne1 + j < i * data.ne1 + data.ne1 := Nat.add_lt_add_left hj _
    _ = (i + 1) * data.ne1 := (Nat.succ_mul i data.ne1).symm
    _ ≤ data.ne0 * data.ne1 := Nat.mul_le_mul_right data.ne1 hi
  have hdiv : (i * data.ne1 + j) / data.ne1 = i := by
    rw [Nat.mul_comm i data.ne1, Nat.mul_add_div hn1, Nat.div_eq_of_lt hj,
      Nat.add_zero]
  have hmod : (i * data.ne1 + j) % data.ne1 = j := by
    rw [Nat.mul_comm i data.ne1, Nat.mul_add_mod, Nat.mod_eq_of_lt hj]
  show (if i * data.ne1 + j < data.ne0 * data.ne1 then
      ∑ pi ∈ Finset.range (min pattern.ne0 (data.ne0 - (i * data.ne1 + j) / data.ne1)),
        ∑ pj ∈ Finset.range
            (min pattern.ne1 (data.ne1 - (i * data.ne1 + j) % data.ne1)),
          pattern.data (pi * pattern.ne1 + pj) *
            data.data (((i * data.ne1 + j) / data.ne1 + pi) * data.ne1 +
              ((i * data.ne1 + j) % data.ne1 + pj))
    else 0) = _
  rw [if_pos hk, hdiv, hmod]

/-- Claim C7: `cognitive_pattern_match pattern data` has `data`'s extents,
its cell `(i, j)` is the sum of `pattern[pi, pj] * data[i+pi, j+pj]` over
exactly those pattern offsets that keep `(i+pi, j+pj)` inside `data`'s bounds
(clipped, no wraparound), and for a 1×1 pattern against a uniform data tensor
of value `c0` every cell equals `pattern[0] * c0`. -/
theorem claim_C7 (pattern data : ggml_tensor) (h2 : data.ne2 = 1)
    (h3 : data.ne3 = 1) :
    ((cognitive_pattern_match pattern data).ne0 = data.ne0 ∧
     (cognitive_pattern_match pattern data).ne1 = data.ne1 ∧
     (cognitive_pattern_match pattern data).ne2 = data.ne2 ∧
     (cognitive_pattern_match pattern data).ne3 = data.ne3) ∧
    (∀ i j, i < data.ne0 → j < data.ne1 →
      (cognitive_pattern_match pattern data).data (i * data.ne1 + j) =
        ∑ c ∈ (Finset.range pattern.ne0 ×ˢ Finset.range pattern.ne1).filter
            (fun c => i + c.1 < data.ne0 ∧ j + c.2 < data.ne1),
          pattern.data (c.1 * pattern.ne1 + c.2) *
            data.data ((i + c.1) * data.ne1 + (j + c.2))) ∧
    (∀ c0 : ℚ, pattern.ne0 = 1 → pattern.ne1 = 1 →
      (∀ k, k < data.ne0 * data.ne1 → data.data k = c0) →
      ∀ i j, i < data.ne0 → j < data.ne1 →
        (cognitive_pattern_match pattern data).data (i * data.ne1 + j)
          = pattern.data 0 * c0) := by
  refine ⟨⟨rfl, rfl, by rw [h2]; rfl, by rw [h3]; rfl⟩, fun i j hi hj => ?_, ?_⟩
  · rw [cognitive_pattern_match_cell pattern data i j hi hj]
    have hset : (Finset.range pattern.ne0 ×ˢ Finset.range pattern.ne1).filter
          (fun c => i + c.1 < data.ne0 ∧ j + c.2 < data.ne1)
        = Finset.range (min pattern.ne0 (data.ne0 - i)) ×ˢ
            Finset.range (min pattern.ne1 (data.ne1 - j)) := by
      apply Finset.ext
      intro c
      simp only [Finset.mem_filter, Finset.mem_product, Finset.mem_range,
        lt_min_iff]
      constructor
      · rintro ⟨⟨hp, hq⟩, hb1, hb2⟩
        exact ⟨⟨hp, by omega⟩, hq, by omega⟩
      · rintro ⟨⟨hp, hp2⟩, hq, hq2⟩
        exact ⟨⟨hp, hq⟩, by omega, by omega⟩
    rw [hset, Finset.sum_product]
  · intro c0 hp0 hp1 hunif i j hi hj
    rw [cognitive_pattern_match_cell pattern data i j hi hj, hp0, hp1]
    have hm0 : min 1 (data.ne0 - i) = 1 := by omega
    have hm1 : min 1 (data.ne1 - j) = 1 := by omega
    rw [hm0, hm1, Finset.sum_range_one, Finset.sum_range_one]
    have hk : (i + 0) * data.ne1 + (j + 0) < data.ne0 * data.ne1 := by
      calc (i + 0) * data.ne1 + (j + 0) = i * data.ne1 + j := by
            rw [Nat.add_zero, Nat.add_zero]
      _ < i * data.ne1 + data.ne1 := Nat.add_lt_add_left hj _
      _ = (i + 1) * data.ne1 := (Nat.succ_mul i data.ne1).symm
      _ ≤ data.ne0 * data.ne1 := Nat.mul_le_mul_right data.ne1 hi
    rw [hunif _ hk]

/-! ## Claim C9: pool exhaustion and accounting -/

/-- Pooled-path evaluation of the allocator: with an initialized pool, a
request of at most the block size and a free block available pops the top
free block and pushes it onto the allocated list. -/
theorem alloc_pooled (pool : TensorMemoryPool) (ty : ℤ) (n0 n1 : ℕ)
    (hr : pool.pool_ready = true) (hsz : n0 * n1 * 4 ≤ TENSOR_BLOCK_SIZE)
    (hf : 0 < pool.free_count) :
    ggml_new_tensor_2d_optimized pool ty n0 n1 =
      ((ggml_new_tensor_2d ty n0 n1,
        AllocSource.pooled (pool.free_blocks (pool.free_count - 1))),
       { pool with
          free_count := pool.free_count - 1,
          allocated_blocks := Function.update pool.allocated_blocks
            pool.allocated_count (pool.free_blocks (pool.free_count - 1)),
          allocated_count := pool.allocated_count + 1,
          total_allocated := pool.total_allocated + n0 * n1 * 4,
          peak_usage := max pool.peak_usage
            (pool.total_allocated + n0 * n1 * 4) }) := by
  simp only [ggml_new_tensor_2d_optimized, hr, if_true]
  rw [if_pos ⟨hsz, hf⟩]

/-- Fallback-path evaluation of the allocator: with an initialized but
exhausted pool the request is served by `aligned_alloc` and the pool state is
unchanged. -/
theorem alloc_no_free (pool : TensorMemoryPool) (ty : ℤ) (n0 n1 : ℕ)
    (hr : pool.pool_ready = true) (hf : pool.free_count = 0) :
    ggml_new_tensor_2d_optimized pool ty n0 n1 =
      ((ggml_new_tensor_2d ty n0 n1, AllocSource.fallback), pool) := by
  simp only [ggml_new_tensor_2d_optimized, hr, if_true]
  rw [if_neg]
  rintro ⟨_, h⟩
  omega

/-- Accounting after a run of small allocations from an initialized pool with
enough free blocks: each one takes the pooled path, so `free_count` drops and
`allocated_count` rises by exactly the number of allocations. -/
theorem run_allocs_counts : ∀ (ps : List (ℕ × ℕ)) (pool : TensorMemoryPool),
    pool.pool_ready = true →
    (∀ q ∈ ps, q.1 * q.2 * 4 ≤ TENSOR_BLOCK_SIZE) →
    ps.length ≤ pool.free_count →
    (run_allocs ps pool).pool_ready = true ∧
    (run_allocs ps pool).free_count = pool.free_count - ps.length ∧
    (run_allocs ps pool).allocated_count = pool.allocated_count + ps.length := by
  intro ps
  induction ps with
  | nil =>
    intro pool hr _ _
    exact ⟨hr, by simp [run_allocs], by simp [run_allocs]⟩
  | cons q ps ih =>
    intro pool hr hsz hlen
    have hq := hsz q (List.mem_cons_self q ps)
    have hf : 0 < pool.free_count := by
      have := hlen
      simp only [List.length_cons] at this
      omega
    have hstep := alloc_pooled pool 0 q.1 q.2 hr hq hf
    have hready2 : (ggml_new_tensor_2d_optimized pool 0 q.1 q.2).2.pool_ready = true := by
      rw [hstep]
      exact hr
    have hfc2 : (ggml_new_tensor_2d_optimized pool 0 q.1 q.2).2.free_count
        = pool.free_count - 1 := by
      rw [hstep]
    have hac2 : (ggml_new_tensor_2d_optimized pool 0 q.1 q.2).2.allocated_count
        = pool.allocated_count + 1 := by
      rw [hstep]
    have hlen2 : ps.length ≤ (ggml_new_tensor_2d_optimized pool 0 q.1 q.2).2.free_count := by
      rw [hfc2]
      simp only [List.length_cons] at hlen
      omega
    obtain ⟨h1, h2, h3⟩ := ih ((ggml_new_tensor_2d_optimized pool 0 q.1 q.2).2) hready2
      (fun q2 hq2 => hsz q2 (List.mem_cons_of_mem _ hq2)) hlen2
    have hrun : run_allocs (q :: ps) pool
        = run_allocs ps (ggml_new_tensor_2d_optimized pool 0 q.1 q.2).2 := rfl
    refine ⟨by rw [hrun]; exact h1, ?_, ?_⟩
    · rw [hrun, h2, hfc2, List.length_cons]
      omega
    · rw [hrun, h3, hac2, List.length_cons]
      omega

/-- Accounting for a nonempty run of small allocations starting from the
uninitialized `{0}` pool state: the first call lazily builds the full free
list, so afterwards exactly `ps.length` blocks are allocated. -/
theorem run_allocs_zero_counts (ps : List (ℕ × ℕ))
    (hsz : ∀ q ∈ ps, q.1 * q.2 * 4 ≤ TENSOR_BLOCK_SIZE)
    (hlen : ps.length ≤ TENSOR_POOL_SIZE) (hne : ps ≠ []) :
    (run_allocs ps zero_pool).pool_ready = true ∧
    (run_allocs ps zero_pool).free_count = TENSOR_POOL_SIZE - ps.length ∧
    (run_allocs ps zero_pool).allocated_count = ps.length := by
  cases ps with
  | nil => exact absurd rfl hne
  | cons q ps =>
    have hq := hsz q (List.mem_cons_self q ps)
    have hfree : 0 < init_tensor_pool.free_count := by
      norm_num [init_tensor_pool, TENSOR_POOL_SIZE]
    have hstep := alloc_pooled init_tensor_pool 0 q.1 q.2 rfl hq hfree
    have hready2 : (ggml_new_tensor_2d_optimized init_tensor_pool 0 q.1 q.2).2.pool_ready
        = true := by
      rw [hstep]
      exact rfl
    have hfc2 : (ggml_new_tensor_2d_optimized init_tensor_pool 0 q.1 q.2).2.free_count
        = TENSOR_POOL_SIZE - 1 := by
      rw [hstep]
      exact rfl
    have hac2 : (ggml_new_tensor_2d_optimized init_tensor_pool 0 q.1 q.2).2.allocated_count
        = 1 := by
      rw [hstep]
      exact rfl
    have hlen2 : ps.length
        ≤ (ggml_new_tensor_2d_optimized init_tensor_pool 0 q.1 q.2).2.free_count := by
      rw [hfc2]
      simp only [List.length_cons] at hlen
      omega
    obtain ⟨h1, h2, h3⟩ := run_allocs_counts ps
      ((ggml_new_tensor_2d_optimized init_tensor_pool 0 q.1 q.2).2) hready2
      (fun q2 hq2 => hsz q2 (List.mem_cons_of_mem _ hq2)) hlen2
    have hzi : run_allocs (q :: ps) zero_pool
        = run_allocs ps (ggml_new_tensor_2d_optimized init_tensor_pool 0 q.1 q.2).2 :=
      rfl
    refine ⟨by rw [hzi]; exact h1, ?_, ?_⟩
    · rw [hzi, h2, hfc2, List.length_cons]
      omega
    · rw [hzi, h3, hac2, List.length_cons]
      omega

/-- Claim C9: starting from the fresh pool, after exactly
`C = TENSOR_POOL_SIZE` allocations of byte size at most
`TENSOR_BLOCK_SIZE`, the `(C+1)`-th such allocation still succeeds and is
served by the fallback path, and the bookkeeping invariant
`free_count + allocated_count = C` holds after every acquisition of the
sequence, including the final fallback one. -/
theorem claim_C9 (ps : List (ℕ × ℕ)) (e0 e1 : ℕ)
    (hlen : ps.length = TENSOR_POOL_SIZE)
    (hsz : ∀ q ∈ ps, q.1 * q.2 * 4 ≤ TENSOR_BLOCK_SIZE)
    (hez : e0 * e1 * 4 ≤ TENSOR_BLOCK_SIZE) :
    (∀ k, 0 < k → k ≤ ps.length →
      (run_allocs (ps.take k) zero_pool).free_count
        + (run_allocs (ps.take k) zero_pool).allocated_count = TENSOR_POOL_SIZE) ∧
    (ggml_new_tensor_2d_optimized (run_allocs ps zero_pool) 0 e0 e1).1.2
      = AllocSource.fallback ∧
    (ggml_new_tensor_2d_optimized (run_allocs ps zero_pool) 0 e0 e1).2.free_count
      + (ggml_new_tensor_2d_optimized (run_allocs ps zero_pool) 0 e0 e1).2.allocated_count
      = TENSOR_POOL_SIZE := by
  have hfull := run_allocs_zero_counts ps hsz (le_of_eq hlen)
    (by
      intro h
      rw [h] at hlen
      simp only [List.length_nil] at hlen
      norm_num [TENSOR_POOL_SIZE] at hlen)
  obtain ⟨hready, hfree, halloc⟩ := hfull
  have hfree0 : (run_allocs ps zero_pool).free_count = 0 := by
    rw [hfree, hlen, Nat.sub_self]
  refine ⟨?_, ?_, ?_⟩
  · intro k hk0 hk1
    have htk := run_allocs_zero_counts (ps.take k)
      (fun q hq => hsz q (List.take_subset k ps hq))
      (by
        rw [List.length_take]
        exact le_trans (Nat.min_le_right _ _) (le_of_eq hlen))
      (by
        apply List.ne_nil_of_length_pos
        rw [List.length_take]
        exact lt_min hk0 (lt_of_lt_of_le hk0 hk1))
    obtain ⟨_, h2, h3⟩ := htk
    rw [h2, h3]
    have hlt : (ps.take k).length ≤ TENSOR_POOL_SIZE := by
      rw [List.length_take]
      exact le_trans (Nat.min_le_right _ _) (le_of_eq hlen)
    omega
  · rw [alloc_no_free _ 0 e0 e1 hready hfree0]
  · rw [alloc_no_free _ 0 e0 e1 hready hfree0]
    rw [hfree0, halloc, hlen]
    omega

/-- Witness for claim C9: 1024 unit-size allocations, then one more. -/
theorem claim_C9_witness :
    ((List.replicate TENSOR_POOL_SIZE ((1 : ℕ), (1 : ℕ))).length = TENSOR_POOL_SIZE ∧
     1 * 1 * 4 ≤ TENSOR_BLOCK_SIZE) ∧
    (ggml_new_tensor_2d_optimized
        (run_allocs (List.replicate TENSOR_POOL_SIZE ((1 : ℕ), (1 : ℕ))) zero_pool)
        0 1 1).1.2
      = AllocSource.fallback := by
  refine ⟨⟨by simp, by norm_num [TENSOR_BLOCK_SIZE]⟩, ?_⟩
  have h := claim_C9 (List.replicate TENSOR_POOL_SIZE ((1 : ℕ), (1 : ℕ))) 1 1
    (by simp)
    (fun q hq => by
      obtain rfl := List.eq_of_mem_replicate hq
      norm_num [TENSOR_BLOCK_SIZE])
    (by norm_num [TENSOR_BLOCK_SIZE])
  exact h.2.1

/-! ## Claim C10: materializing a tensor into the store is destructive -/

/-- Unfolding of `add_atom_to_space` when the store still has room. -/
theorem add_atom_ok (as : AtomSpace) (a : Atom)
    (h : as.atoms.length < as.capacity) :
    add_atom_to_space as a = { as with atoms := as.atoms ++ [some a] } := by
  unfold add_atom_to_space
  rw [if_pos h]

/-- Invariant of the `tensor_to_atomspace` creation loop: starting from the
cleared store, after scanning cells `0 … n-1` (with `n` at most the capacity)
the store holds exactly one `concept_<i>` atom per significant cell `i`, in
cell order, and the capacity bound never rejects an append. -/
theorem tensor_to_atomspace_loop (t : ggml_tensor) (cap : ℕ) :
    ∀ n, n ≤ cap →
    ((List.range n).foldl
        (fun s i =>
          if (1/100 : ℚ) < t.data i then
            add_atom_to_space s
              (create_atom ATOM_TYPE_CONCEPT (some ("concept_" ++ toString i))
                (t.data i) (4/5))
          else s)
        { atoms := [], capacity := cap }).atoms
      = ((List.range n).filter (fun i => decide ((1/100 : ℚ) < t.data i))).map
          (fun i => some (create_atom ATOM_TYPE_CONCEPT
            (some ("concept_" ++ toString i)) (t.data i) (4/5)))
    ∧ ((List.range n).foldl
        (fun s i =>
          if (1/100 : ℚ) < t.data i then
            add_atom_to_space s
              (create_atom ATOM_TYPE_CONCEPT (some ("concept_" ++ toString i))
                (t.data i) (4/5))
          else s)
        { atoms := [], capacity := cap }).capacity = cap := by
  intro n
  induction n with
  | zero => exact fun _ => ⟨rfl, rfl⟩
  | succ n ih =>
    intro hcap
    obtain ⟨ha, hc⟩ := ih (Nat.le_of_succ_le hcap)
    rw [List.range_succ, List.foldl_append, List.filter_append, List.map_append]
    simp only [List.foldl_cons, List.foldl_nil]
    by_cases hsig : (1/100 : ℚ) < t.data n
    · have hfil : List.filter (fun i => decide ((1/100 : ℚ) < t.data i)) [n]
          = [n] := by
        simp only [List.filter_cons, List.filter_nil]
        rw [decide_eq_true hsig]
        rfl
      have hlen : ((List.range n).foldl
          (fun s i =>
            if (1/100 : ℚ) < t.data i then
              add_atom_to_space s
                (create_atom ATOM_TYPE_CONCEPT (some ("concept_" ++ toString i))
                  (t.data i) (4/5))
            else s)
          { atoms := [], capacity := cap }).atoms.length
          < ((List.range n).foldl
          (fun s i =>
            if (1/100 : ℚ) < t.data i then
              add_atom_to_space s
                (create_atom ATOM_TYPE_CONCEPT (some ("concept_" ++ toString i))
                  (t.data i) (4/5))
            else s)
          { atoms := [], capacity := cap }).capacity := by
        rw [ha, hc, List.length_map]
        calc ((List.range n).filter _).length ≤ (List.range n).length :=
              List.length_filter_le _ _
        _ = n := List.length_range n
        _ < cap := hcap
      rw [if_pos hsig, add_atom_ok _ _ hlen, hfil]
      refine ⟨?_, hc⟩
      rw [ha]
      rfl
    · have hfil : List.filter (fun i => decide ((1/100 : ℚ) < t.data i)) [n]
          = [] := by
        simp only [List.filter_cons, List.filter_nil]
        rw [decide_eq_false hsig]
        rfl
      rw [if_neg hsig, hfil]
      simp only [List.map_nil, List.append_nil]
      exact ⟨ha, hc⟩

/-- Claim C10: `tensor_to_atomspace` is destructive — no atom from before the
call survives — and afterwards the store holds exactly one `concept_<i>` atom
(mean = the cell value, confidence 0.8) per cell `i` with value strictly
above `0.01`, in linear-index order, the scan being capped at
`min (tensor size) capacity` cells; the resulting atom list is completely
determined by the tensor and the capacity, independent of the prior atoms. -/
theorem claim_C10 (t : ggml_tensor) (as : AtomSpace) :
    (tensor_to_atomspace t as).capacity = as.capacity ∧
    (tensor_to_atomspace t as).atoms =
      ((List.range (min (t.ne0 * t.ne1) as.capacity)).filter
          (fun i => decide ((1/100 : ℚ) < t.data i))).map
        (fun i => some (create_atom ATOM_TYPE_CONCEPT
          (some ("concept_" ++ toString i)) (t.data i) (4/5))) := by
  have h := tensor_to_atomspace_loop t as.capacity
    (min (t.ne0 * t.ne1) as.capacity) (Nat.min_le_right _ _)
  exact ⟨h.2, h.1⟩

/-- Witness for claim C7 at the concrete 1×1 pattern and 2×3 data tensor. -/
theorem claim_C7_witness :
    (dataW.ne2 = 1 ∧ dataW.ne3 = 1) ∧
    ((cognitive_pattern_match patternW dataW).ne0 = dataW.ne0 ∧
     (cognitive_pattern_match patternW dataW).ne1 = dataW.ne1 ∧
     (cognitive_pattern_match patternW dataW).ne2 = dataW.ne2 ∧
     (cognitive_pattern_match patternW dataW).ne3 = dataW.ne3) :=
  ⟨⟨rfl, rfl⟩, (claim_C7 patternW dataW rfl rfl).1⟩
